import Mathlib

/-!
Verification of the game-settings resolution and masterlist-source migration
engine of the lootcli worker (src/src/lootthread.cpp), as a shallow embedding.

Strings are modelled as lists of characters (Str); the filesystem is an
abstract oracle (FS); the static game catalog whose implementation file is
not part of the sources is a parameter structure (Catalog) except where the
spec fixes a concrete value.  Machine behaviour that the C++ standard leaves
undefined (dereferencing an empty std::optional) is modelled as a
distinguished outcome, never as a value.
-/

namespace LootCli

/-- Character-list strings, the representation used throughout the model. -/
abbrev Str := List Char

/-- Conversion from a Lean string literal to the model representation. -/
def str (s : String) : Str := s.data

/-- ASCII lowering of one character, modelling std::tolower on the inputs the
worker feeds it. -/
def lowerChar (c : Char) : Char := c.toLower

/-- Lowercasing of a whole string, modelling the ToLower helper
(lootthread.cpp lines 48-55). -/
def lowerStr (s : Str) : Str := s.map lowerChar

/-- Contiguous substring test on character lists. -/
def strContains (text pat : Str) : Bool :=
  if pat.isPrefixOf text then true
  else
    match text with
    | [] => false
    | _ :: t => strContains t pat

/-- Case-insensitive substring test, modelling boost::icontains as used by
the classifiers. -/
def icontains (text pat : Str) : Bool :=
  strContains (lowerStr text) (lowerStr pat)

/-- The libloot game identifiers (game_settings.h lines 1097-1112). -/
inductive GameId where
  | tes3 | tes4 | nehrim | tes5 | enderal | tes5se | enderalse
  | tes5vr | fo3 | fonv | fo4 | fo4vr | starfield
deriving DecidableEq, Repr

/-- The engine-type classes behind GameSettings::Type().  Modelled from the
spec: the GameType enum and GetGameType implementation are not among the
sources; spec section 3 states that Nehrim, Enderal and Enderal SE share the
engine-type class of their base games while every other identity has its
own class. -/
inductive GameType where
  | tes3 | tes4 | tes5 | tes5se | tes5vr | fo3 | fonv | fo4 | fo4vr | starfield
deriving DecidableEq, Repr

/-- Modelled from the spec: GetGameType (declared in game_settings.h line
1114, implementation not among the sources).  Each total-conversion variant
maps to its base game class; all other identities map to their own class. -/
def GetGameType : GameId → GameType
  | .tes3 => .tes3
  | .tes4 => .tes4
  | .nehrim => .tes4
  | .tes5 => .tes5
  | .enderal => .tes5
  | .tes5se => .tes5se
  | .enderalse => .tes5se
  | .tes5vr => .tes5vr
  | .fo3 => .fo3
  | .fonv => .fonv
  | .fo4 => .fo4
  | .fo4vr => .fo4vr
  | .starfield => .starfield

/-- The current default masterlist branch (game_settings.h line 1095). -/
def DEFAULT_MASTERLIST_BRANCH : Str := str "v0.23"

/-- The known-superseded default branches (lootthread.cpp lines 19-21),
listed in the iteration order of the C++ std::set of strings
(lexicographic). -/
def oldDefaultBranches : List Str :=
  [str "master", str "v0.10", str "v0.13", str "v0.14", str "v0.15",
   str "v0.17", str "v0.18", str "v0.7", str "v0.8"]

/-- Branch migration (lootthread.cpp lines 440-445): a superseded default
branch is replaced by the current default branch, anything else is kept. -/
def migrateBranch (branch : Str) : Str :=
  if branch ∈ oldDefaultBranches then DEFAULT_MASTERLIST_BRANCH else branch

theorem migrateBranch_mem_eq (b : Str) (h : b ∈ oldDefaultBranches) :
    migrateBranch b = DEFAULT_MASTERLIST_BRANCH := by
  simp [migrateBranch, h]

theorem migrateBranch_not_mem_eq (b : Str) (h : b ∉ oldDefaultBranches) :
    migrateBranch b = b := by
  simp [migrateBranch, h]

theorem default_branch_not_old :
    DEFAULT_MASTERLIST_BRANCH ∉ oldDefaultBranches := by decide

theorem migrateBranch_not_old (b : Str) :
    migrateBranch b ∉ oldDefaultBranches := by
  by_cases h : b ∈ oldDefaultBranches
  · rw [migrateBranch_mem_eq b h]; exact default_branch_not_old
  · rw [migrateBranch_not_mem_eq b h]; exact h

/-- C4: every branch in the known-superseded set is mapped to the single
current default branch, every other branch is unchanged, and the migration
is idempotent. -/
theorem migrateBranch_spec :
    (∀ b ∈ oldDefaultBranches, migrateBranch b = DEFAULT_MASTERLIST_BRANCH) ∧
    (∀ b, b ∉ oldDefaultBranches → migrateBranch b = b) ∧
    (∀ b, migrateBranch (migrateBranch b) = migrateBranch b) := by
  refine ⟨migrateBranch_mem_eq, migrateBranch_not_mem_eq, ?_⟩
  intro b
  exact migrateBranch_not_mem_eq (migrateBranch b) (migrateBranch_not_old b)

theorem migrateBranch_spec_witness :
    migrateBranch (str "v0.7") = str "v0.23" ∧
    migrateBranch (str "wip") = str "wip" ∧
    migrateBranch (migrateBranch (str "master")) = migrateBranch (str "master") :=
  ⟨migrateBranch_spec.1 (str "v0.7") (by decide),
   migrateBranch_spec.2.1 (str "wip") (by decide),
   migrateBranch_spec.2.2 (str "master")⟩

/-- Abstract filesystem oracle: existence checks, regular-file checks and
the first line of a file, the only filesystem capabilities the migration
logic consumes. -/
structure FS where
  pathExists : Str → Bool
  isRegularFile : Str → Bool
  headLine : Str → Option Str

/-- POSIX path append, modelling std::filesystem::path::operator/ on the
relative components the worker joins. -/
def pathJoin (a b : Str) : Str := a ++ '/' :: b

/-- Last path component, modelling std::filesystem::path::filename. -/
def pathFilename (p : Str) : Str :=
  (p.reverse.takeWhile (fun c => c != '/')).reverse

/-- The static game catalog (game_settings.h lines 1116-1131).  The
implementation file is not among the sources and no claim depends on the
concrete values of these tables, so they are kept abstract. -/
structure Catalog where
  getGameName : GameId → Str
  getMasterFilename : GameId → Str
  getMinimumHeaderVersion : GameId → Int
  getDefaultMasterlistRepositoryName : GameId → Str

/-- The raw masterlist URL template
https://raw.githubusercontent.com/OWNER/REPO/BRANCH/masterlist.yaml used by
the migration code (lootthread.cpp lines 493-494 and 505-506). -/
def rawUrl (owner repo branch : Str) : Str :=
  str "https://raw.githubusercontent.com/" ++
    owner ++ '/' :: repo ++ '/' :: branch ++ str "/masterlist.yaml"

/-- Modelled from the spec: GetDefaultMasterlistUrl (declared in
game_settings.h line 1130, implementation not among the sources).  Spec
section 4.1 fixes it as the constant template
https://raw.githubusercontent.com/loot/REPO/DEFAULT_BRANCH/masterlist.yaml. -/
def GetDefaultMasterlistUrl (repositoryName : Str) : Str :=
  rawUrl (str "loot") repositoryName DEFAULT_MASTERLIST_BRANCH

/-- The resolved game profile (game_settings.h lines 1133-1173).  The C++
float minimumHeaderVersion is never computed with by the code under
verification, only copied; it is modelled by an opaque integer token. -/
structure GameSettings where
  id : GameId
  gtype : GameType
  name : Str
  masterFile : Str
  minimumHeaderVersion : Int
  lootFolderName : Str
  masterlistSource : Str
  gamePath : Str
  gameLocalPath : Str
deriving DecidableEq, Repr

/-- Modelled from the spec: the GameSettings two-argument constructor
(game_settings.h line 1137, implementation not among the sources)
initialises every field from the catalog defaults for the identity, with
the given loot folder name. -/
def mkGameSettings (cat : Catalog) (id : GameId) (folder : Str) : GameSettings :=
  { id := id
    gtype := GetGameType id
    name := cat.getGameName id
    masterFile := cat.getMasterFilename id
    minimumHeaderVersion := cat.getMinimumHeaderVersion id
    lootFolderName := folder
    masterlistSource := GetDefaultMasterlistUrl
      (cat.getDefaultMasterlistRepositoryName id)
    gamePath := []
    gameLocalPath := [] }

def GameSettings.setName (s : GameSettings) (n : Str) : GameSettings :=
  { s with name := n }

def GameSettings.setMaster (s : GameSettings) (m : Str) : GameSettings :=
  { s with masterFile := m }

def GameSettings.setMinimumHeaderVersion (s : GameSettings) (v : Int) :
    GameSettings :=
  { s with minimumHeaderVersion := v }

def GameSettings.setMasterlistSource (s : GameSettings) (src : Str) :
    GameSettings :=
  { s with masterlistSource := src }

def GameSettings.setGamePath (s : GameSettings) (p : Str) : GameSettings :=
  { s with gamePath := p }

def GameSettings.setGameLocalPath (s : GameSettings) (p : Str) : GameSettings :=
  { s with gameLocalPath := p }

/-- Modelled from the spec: SetGameLocalFolder (game_settings.h line 1158,
implementation not among the sources) resolves the folder under the
platform local-application-data root; no claim inspects the value. -/
def GameSettings.setGameLocalFolder (s : GameSettings) (f : Str) : GameSettings :=
  { s with gameLocalPath := pathJoin (str "localappdata") f }

/-- One games-array table from the persisted settings document, with every
field optional: a key that is absent, or present with a value of the wrong
TOML type, reads as none, exactly as toml value of T does.  The C++ double
minimumHeaderVersion is modelled by an opaque integer token (it is only
copied, never computed with). -/
structure GameEntry where
  gameId : Option Str := none
  type : Option Str := none
  folder : Option Str := none
  name : Option Str := none
  master : Option Str := none
  minimumHeaderVersion : Option Int := none
  masterlistSource : Option Str := none
  repo : Option Str := none
  branch : Option Str := none
  path : Option Str := none
  localPath : Option Str := none
  localFolder : Option Str := none
  isBaseGameInstance : Option Bool := none
deriving DecidableEq, Repr

/-- GetLocalFolder (lootthread.cpp lines 277-292): the local_folder value if
present, else the filename component of local_path, else none. -/
def GetLocalFolder (e : GameEntry) : Option Str :=
  match e.localFolder with
  | some f => some f
  | none =>
    match e.localPath with
    | some p => some (pathFilename p)
    | none => none

/-- The heuristic fallback of IsNehrim (lootthread.cpp lines 305-323):
true if any of the four signals matches; absent fields never match. -/
def IsNehrimHeuristic (cat : Catalog) (e : GameEntry) : Bool :=
  (match e.master with
   | some m => m == cat.getMasterFilename .nehrim
   | none => false) ||
  (match e.name with
   | some n => icontains n (str "nehrim")
   | none => false) ||
  (match e.folder with
   | some f => icontains f (str "nehrim")
   | none => false) ||
  (match e.isBaseGameInstance with
   | some b => !b
   | none => false)

/-- IsNehrim (lootthread.cpp lines 294-323): a non-empty existing install
path decides via the NehrimLauncher.exe marker alone; otherwise the
heuristic fallback decides. -/
def IsNehrim (cat : Catalog) (fs : FS) (e : GameEntry) : Bool :=
  match e.path with
  | some p =>
    if !p.isEmpty && fs.pathExists p then
      fs.pathExists (pathJoin p (str "NehrimLauncher.exe"))
    else
      IsNehrimHeuristic cat e
  | none => IsNehrimHeuristic cat e

/-- The heuristic fallback of IsEnderal (lootthread.cpp lines 337-355). -/
def IsEnderalHeuristic (e : GameEntry) (expectedLocalFolder : Str) : Bool :=
  (match GetLocalFolder e with
   | some lf => lf == expectedLocalFolder
   | none => false) ||
  (match e.name with
   | some n => icontains n (str "enderal")
   | none => false) ||
  (match e.folder with
   | some f => icontains f (str "enderal")
   | none => false) ||
  (match e.isBaseGameInstance with
   | some b => !b
   | none => false)

/-- IsEnderal, two-argument form (lootthread.cpp lines 325-355). -/
def IsEnderalWith (fs : FS) (e : GameEntry) (expectedLocalFolder : Str) : Bool :=
  match e.path with
  | some p =>
    if !p.isEmpty && fs.pathExists p then
      fs.pathExists (pathJoin p (str "Enderal Launcher.exe"))
    else
      IsEnderalHeuristic e expectedLocalFolder
  | none => IsEnderalHeuristic e expectedLocalFolder

/-- IsEnderal (lootthread.cpp lines 357-360). -/
def IsEnderal (fs : FS) (e : GameEntry) : Bool :=
  IsEnderalWith fs e (str "enderal")

/-- IsEnderalSE (lootthread.cpp lines 362-365). -/
def IsEnderalSE (fs : FS) (e : GameEntry) : Bool :=
  IsEnderalWith fs e (str "Enderal Special Edition")

/-- A catalog instance with placeholder values, used only to evaluate the
theorems at concrete inputs. -/
def trivCatalog : Catalog :=
  { getGameName := fun _ => []
    getMasterFilename := fun id => if id = .nehrim then str "Nehrim.esm" else []
    getMinimumHeaderVersion := fun _ => 0
    getDefaultMasterlistRepositoryName := fun _ => [] }

/-- A filesystem oracle on which nothing exists. -/
def emptyFS : FS :=
  { pathExists := fun _ => false
    isRegularFile := fun _ => false
    headLine := fun _ => none }

/-- C3: with a non-empty install path that exists on disk, IsNehrim is
exactly the NehrimLauncher.exe marker check and the heuristics are skipped
(the result does not depend on any other field); otherwise IsNehrim is true
iff the declared master equals Nehrim's canonical master file, the name or
folder contains nehrim case-insensitively, or isBaseGameInstance is present
and false.  The classifier is a total function: absent fields are
non-matching, never errors. -/
theorem IsNehrim_spec (cat : Catalog) (fs : FS) (e : GameEntry) :
    (∀ p, e.path = some p → p ≠ [] → fs.pathExists p = true →
      IsNehrim cat fs e =
        fs.pathExists (pathJoin p (str "NehrimLauncher.exe"))) ∧
    ((∀ p, e.path = some p → p = [] ∨ fs.pathExists p = false) →
      (IsNehrim cat fs e = true ↔
        (e.master = some (cat.getMasterFilename .nehrim) ∨
         (∃ n, e.name = some n ∧ icontains n (str "nehrim") = true) ∨
         (∃ f, e.folder = some f ∧ icontains f (str "nehrim") = true) ∨
         e.isBaseGameInstance = some false))) := by
  constructor
  · intro p hp hne hex
    cases p with
    | nil => exact absurd rfl hne
    | cons a t => simp [IsNehrim, hp, hex]
  · intro h
    have he : IsNehrim cat fs e = IsNehrimHeuristic cat e := by
      unfold IsNehrim
      cases hp : e.path with
      | none => rfl
      | some p =>
        rcases h p hp with h1 | h2
        · subst h1; simp
        · simp [h2]
    rw [he]
    unfold IsNehrimHeuristic
    cases hma : e.master <;> cases hna : e.name <;> cases hfo : e.folder <;>
        cases hib : e.isBaseGameInstance <;>
      simp [hma, hna, hfo, hib, Bool.not_eq_true', or_assoc]

theorem IsNehrim_spec_witness :
    IsNehrim trivCatalog emptyFS { master := some (str "Nehrim.esm") } = true :=
  ((IsNehrim_spec trivCatalog emptyFS
      { master := some (str "Nehrim.esm") }).2
    (fun p hp => by exact absurd hp (by simp))).mpr
    (Or.inl (by decide))

/-! ### The GitHub repository URL pattern

GITHUB_REPO_URL_REGEX (lootthread.cpp lines 22-24) is the case-insensitive
ECMAScript regex matching a whole URL:
  anchored https://github.com/ then ([^/]+) then / then ([^/]+?)
  then an optional .git then an optional / then end.
githubMatch implements its deterministic matching: the greedy first group is
the maximal slash-free run after the prefix; the lazy second group makes a
trailing .git (itself optionally followed by the optional slash) belong to
the non-capturing group whenever the remaining text is longer than .git
itself. -/

/-- Lowercase image of the fixed URL prefix of the pattern. -/
def githubPrefix : Str := str "https://github.com/"

/-- The lazy second capture group: on a slash-free non-empty text a
trailing case-insensitive .git longer than the whole text is split off,
otherwise the text itself is the group. -/
def githubRepoOf (t : Str) : Option Str :=
  if t.any (fun c => c == '/') then none
  else if t = [] then none
  else if 4 < t.length ∧ (t.map lowerChar).drop (t.length - 4) = str ".git" then
    some (t.take (t.length - 4))
  else some t

/-- Matching of the text after the owner's slash: strip the single optional
trailing slash, then extract the lazy repository group. -/
def githubTail (owner tail : Str) : Option (Str × Str) :=
  (githubRepoOf (if tail.getLast? = some '/' then tail.dropLast else tail)).map
    (fun r => (owner, r))

/-- The match of GITHUB_REPO_URL_REGEX, returning the two capture groups. -/
def githubMatch (url : Str) : Option (Str × Str) :=
  if (url.take 19).map lowerChar = githubPrefix then
    match (url.drop 19).dropWhile (fun c => c != '/') with
    | [] => none
    | _ :: tail =>
      if (url.drop 19).takeWhile (fun c => c != '/') = [] then none
      else githubTail ((url.drop 19).takeWhile (fun c => c != '/')) tail
  else none

/-- Relational form of the pattern: url decomposes into the case-insensitive
prefix, a non-empty slash-free owner, a slash, a non-empty slash-free repo,
and an optional case-insensitive .git suffix followed by an optional
slash. -/
def GithubDecomp (url owner repo : Str) : Prop :=
  ∃ pre sfx, url = pre ++ (owner ++ '/' :: (repo ++ sfx)) ∧
    pre.map lowerChar = githubPrefix ∧
    owner ≠ [] ∧ '/' ∉ owner ∧ repo ≠ [] ∧ '/' ∉ repo ∧
    (sfx = [] ∨ sfx = ['/'] ∨
      ∃ g, (sfx = g ∨ sfx = g ++ ['/']) ∧ g.map lowerChar = str ".git")

theorem takeWhile_append_slash (a b : Str) (h : '/' ∉ a) :
    (a ++ '/' :: b).takeWhile (fun c => c != '/') = a := by
  induction a with
  | nil => simp [List.takeWhile]
  | cons x xs ih =>
    have hx : x ≠ '/' := fun e => h (by simp [e])
    have hxs : '/' ∉ xs := fun m => h (List.mem_cons_of_mem _ m)
    simpa [List.takeWhile_cons, bne_iff_ne, hx] using ih hxs

theorem dropWhile_append_slash (a b : Str) (h : '/' ∉ a) :
    (a ++ '/' :: b).dropWhile (fun c => c != '/') = '/' :: b := by
  induction a with
  | nil => simp [List.dropWhile]
  | cons x xs ih =>
    have hx : x ≠ '/' := fun e => h (by simp [e])
    have hxs : '/' ∉ xs := fun m => h (List.mem_cons_of_mem _ m)
    simpa [List.dropWhile_cons, bne_iff_ne, hx] using ih hxs

theorem seg_inj (a : Str) : ∀ c : Str, ∀ b d : Str, '/' ∉ a → '/' ∉ c →
    a ++ '/' :: b = c ++ '/' :: d → a = c ∧ b = d := by
  induction a with
  | nil =>
    intro c b d _ hc h
    cases c with
    | nil => simpa using h
    | cons y ys =>
      injection h with h1 _
      exact absurd (h1 ▸ List.mem_cons_self y ys) hc
  | cons x xs ih =>
    intro c b d ha hc h
    cases c with
    | nil =>
      injection h with h1 _
      exact absurd (h1 ▸ List.mem_cons_self x xs) ha
    | cons y ys =>
      injection h with h1 h2
      have ha' : '/' ∉ xs := fun m => ha (List.mem_cons_of_mem _ m)
      have hc' : '/' ∉ ys := fun m => hc (List.mem_cons_of_mem _ m)
      obtain ⟨e1, e2⟩ := ih ys b d ha' hc' h2
      exact ⟨by rw [h1, e1], e2⟩

theorem dropWhile_head_false {p : Char → Bool} {l : Str} {c : Char} {cs : Str}
    (h : l.dropWhile p = c :: cs) : p c = false := by
  have := List.head?_dropWhile_not p l
  rw [h] at this
  simpa using this

theorem githubRepoOf_sound {t r : Str} (h : githubRepoOf t = some r) :
    (t = r ∨ ∃ g, t = r ++ g ∧ g.map lowerChar = str ".git") ∧
      r ≠ [] ∧ '/' ∉ r := by
  unfold githubRepoOf at h
  by_cases h1 : t.any (fun c => c == '/')
  · rw [if_pos h1] at h; cases h
  rw [if_neg h1] at h
  have hslash : '/' ∉ t := fun m => h1 (List.any_eq_true.mpr ⟨'/', m, by simp⟩)
  by_cases h2 : t = ([] : Str)
  · rw [if_pos h2] at h; cases h
  rw [if_neg h2] at h
  by_cases h3 : 4 < t.length ∧ (t.map lowerChar).drop (t.length - 4) = str ".git"
  · rw [if_pos h3] at h
    have hr : r = t.take (t.length - 4) := (Option.some.inj h).symm
    have hlen : r.length = t.length - 4 := by
      rw [hr, List.length_take]
      omega
    refine ⟨Or.inr ⟨t.drop (t.length - 4), ?_, ?_⟩, ?_, ?_⟩
    · rw [hr, List.take_append_drop]
    · rw [List.map_drop]
      exact h3.2
    · intro hnil
      rw [hnil] at hlen
      simp at hlen
      omega
    · intro m
      exact hslash (List.take_subset _ _ (hr ▸ m))
  · rw [if_neg h3] at h
    have hr : r = t := (Option.some.inj h).symm
    subst hr
    exact ⟨Or.inl rfl, h2, hslash⟩

theorem githubRepoOf_some {t : Str} (h1 : '/' ∉ t) (h2 : t ≠ []) :
    ∃ r, githubRepoOf t = some r := by
  unfold githubRepoOf
  have ha : ¬ (t.any (fun c => c == '/') = true) := by
    intro hc
    obtain ⟨x, hx, he⟩ := List.any_eq_true.mp hc
    exact h1 (beq_iff_eq.mp he ▸ hx)
  rw [if_neg ha, if_neg h2]
  by_cases h3 : 4 < t.length ∧ (t.map lowerChar).drop (t.length - 4) = str ".git"
  · rw [if_pos h3]; exact ⟨_, rfl⟩
  · rw [if_neg h3]; exact ⟨_, rfl⟩

theorem githubTail_sound {owner tail o r : Str}
    (h : githubTail owner tail = some (o, r)) :
    o = owner ∧ ∃ sfx, tail = r ++ sfx ∧ r ≠ [] ∧ '/' ∉ r ∧
      (sfx = [] ∨ sfx = ['/'] ∨
        ∃ g, (sfx = g ∨ sfx = g ++ ['/']) ∧ g.map lowerChar = str ".git") := by
  unfold githubTail at h
  obtain ⟨r0, hr0, hpair⟩ := Option.map_eq_some'.mp h
  have ho : o = owner := by
    have := congrArg Prod.fst hpair
    simpa using this.symm
  have hr : r0 = r := by
    have := congrArg Prod.snd hpair
    simpa using this
  subst hr
  by_cases hl : tail.getLast? = some '/'
  · rw [if_pos hl] at hr0
    have hne : tail ≠ [] := by rintro rfl; simp at hl
    have hlast : tail.getLast hne = '/' := by
      rw [List.getLast?_eq_getLast tail hne] at hl
      exact Option.some.inj hl
    have htail : tail = tail.dropLast ++ ['/'] := by
      conv_lhs => rw [← List.dropLast_append_getLast hne]
      rw [hlast]
    obtain ⟨hshape, hrne, hrs⟩ := githubRepoOf_sound hr0
    rcases hshape with he | ⟨g, he, hg⟩
    · exact ⟨ho, ['/'], by rw [htail, he], hrne, hrs, Or.inr (Or.inl rfl)⟩
    · refine ⟨ho, g ++ ['/'], ?_, hrne, hrs,
        Or.inr (Or.inr ⟨g, Or.inr rfl, hg⟩)⟩
      rw [htail, he, List.append_assoc]
  · rw [if_neg hl] at hr0
    obtain ⟨hshape, hrne, hrs⟩ := githubRepoOf_sound hr0
    rcases hshape with he | ⟨g, he, hg⟩
    · exact ⟨ho, [], by rw [he]; simp, hrne, hrs, Or.inl rfl⟩
    · exact ⟨ho, g, by rw [he], hrne, hrs, Or.inr (Or.inr ⟨g, Or.inl rfl, hg⟩)⟩

theorem githubTail_isSome {o r sfx : Str} (hr : r ≠ []) (hrs : '/' ∉ r)
    (hsfx : sfx = [] ∨ sfx = ['/'] ∨
      ∃ g, (sfx = g ∨ sfx = g ++ ['/']) ∧ g.map lowerChar = str ".git") :
    (githubTail o (r ++ sfx)).isSome = true := by
  rcases hsfx with rfl | rfl | ⟨g, hg, hmap⟩
  · have hl : ¬ (r ++ []).getLast? = some '/' := by
      rw [List.append_nil]
      intro hl
      have hlast : r.getLast hr = '/' := by
        rw [List.getLast?_eq_getLast r hr] at hl
        exact Option.some.inj hl
      exact hrs (hlast ▸ List.getLast_mem hr)
    unfold githubTail
    rw [if_neg hl, List.append_nil]
    obtain ⟨r0, h0⟩ := githubRepoOf_some hrs hr
    rw [h0]
    rfl
  · unfold githubTail
    rw [List.getLast?_concat, if_pos rfl, List.dropLast_concat]
    obtain ⟨r0, h0⟩ := githubRepoOf_some hrs hr
    rw [h0]
    rfl
  · have hgne : g ≠ [] := by
      rintro rfl
      simp [str] at hmap
    have hgs : '/' ∉ g := by
      intro m
      have : '/' ∈ g.map lowerChar := by
        have : lowerChar '/' = '/' := by decide
        exact this ▸ List.mem_map_of_mem lowerChar m
      rw [hmap] at this
      simp [str] at this
    have hrg_ne : r ++ g ≠ [] := by simp [hgne]
    have hrgs : '/' ∉ r ++ g := by
      intro m
      rcases List.mem_append.mp m with m | m
      · exact hrs m
      · exact hgs m
    rcases hg with hgeq | hgeq <;> rw [hgeq]
    · have hl : ¬ (r ++ g).getLast? = some '/' := by
        rw [List.getLast?_append_of_ne_nil _ hgne]
        intro hl
        have hlast : g.getLast hgne = '/' := by
          rw [List.getLast?_eq_getLast g hgne] at hl
          exact Option.some.inj hl
        exact hgs (hlast ▸ List.getLast_mem hgne)
      unfold githubTail
      rw [if_neg hl]
      obtain ⟨r0, h0⟩ := githubRepoOf_some hrgs hrg_ne
      rw [h0]
      rfl
    · unfold githubTail
      rw [← List.append_assoc, List.getLast?_concat, if_pos rfl,
        List.dropLast_concat]
      obtain ⟨r0, h0⟩ := githubRepoOf_some hrgs hrg_ne
      rw [h0]
      rfl

theorem githubMatch_sound {url o r : Str} (h : githubMatch url = some (o, r)) :
    GithubDecomp url o r := by
  unfold githubMatch at h
  by_cases hp : (url.take 19).map lowerChar = githubPrefix
  · rw [if_pos hp] at h
    split at h
    · exact Option.noConfusion h
    · rename_i c0 tail hd
      by_cases ho : (url.drop 19).takeWhile (fun c => c != '/') = []
      · rw [if_pos ho] at h; exact Option.noConfusion h
      rw [if_neg ho] at h
      have hc0 : c0 = '/' := by
        have := dropWhile_head_false hd
        simpa using this
      obtain ⟨ho', sfx, htail, hrne, hrs, hsfx⟩ := githubTail_sound h
      have hos : '/' ∉ (url.drop 19).takeWhile (fun c => c != '/') := by
        intro m
        have := List.mem_takeWhile_imp m
        simp at this
      refine ⟨url.take 19, sfx, ?_, hp, ho' ▸ ho, ho' ▸ hos, hrne, hrs, hsfx⟩
      conv_lhs => rw [← List.take_append_drop 19 url]
      congr 1
      conv_lhs =>
        rw [← (url.drop 19).takeWhile_append_dropWhile (fun c => c != '/'),
          hd, hc0, htail]
      rw [ho']
  · rw [if_neg hp] at h; exact Option.noConfusion h

theorem githubMatch_isSome_of_decomp {url o r : Str} (h : GithubDecomp url o r) :
    (githubMatch url).isSome = true := by
  obtain ⟨pre, sfx, hurl, hpre, hone, hos, hrne, hrs, hsfx⟩ := h
  have hlen : pre.length = 19 := by
    have := congrArg List.length hpre
    simpa [githubPrefix, str] using this
  have htake : url.take 19 = pre := by
    rw [hurl, ← hlen, List.take_left]
  have hdrop : url.drop 19 = o ++ '/' :: (r ++ sfx) := by
    rw [hurl, ← hlen, List.drop_left]
  have hpre' : (url.take 19).map lowerChar = githubPrefix := by
    rw [htake]; exact hpre
  unfold githubMatch
  rw [if_pos hpre']
  split
  · rename_i heq
    rw [hdrop, dropWhile_append_slash _ _ hos] at heq
    exact List.noConfusion heq
  · rename_i c0 tail heq
    rw [hdrop, dropWhile_append_slash _ _ hos] at heq
    have htl : tail = r ++ sfx := by
      injection heq with h1 h2
      exact h2.symm
    rw [hdrop, takeWhile_append_slash _ _ hos, if_neg hone, htl]
    exact githubTail_isSome hrne hrs hsfx

theorem githubMatch_none_no_decomp {url : Str} (h : githubMatch url = none) :
    ∀ o r, ¬ GithubDecomp url o r := by
  intro o r hd
  have := githubMatch_isSome_of_decomp hd
  rw [h] at this
  cases this

/-! ### Masterlist source migration -/

/-- Log severities (the worker only ever emits these levels). -/
inductive LogLevel where
  | trace | debug | info | warning | error | fatal
deriving DecidableEq, Repr

/-- One emitted log call: severity and message. -/
abbrev LogEntry := LogLevel × Str

/-- isLocalPath (lootthread.cpp lines 395-416): URLs with an http or https
scheme are never local; otherwise the location must hold the file and a
.git/HEAD file. -/
def isLocalPath (fs : FS) (location filename : Str) : Bool :=
  if (str "http://").isPrefixOf location ||
      (str "https://").isPrefixOf location then
    false
  else
    fs.isRegularFile (pathJoin location filename) &&
      fs.isRegularFile (pathJoin (pathJoin location (str ".git")) (str "HEAD"))

/-- isBranchCheckedOut (lootthread.cpp lines 418-433): the first line of
.git/HEAD must be exactly ref: refs/heads/BRANCH. -/
def isBranchCheckedOut (fs : FS) (localGitRepo branch : Str) : Bool :=
  match fs.headLine (pathJoin (pathJoin localGitRepo (str ".git")) (str "HEAD")) with
  | none => false
  | some line => line == str "ref: refs/heads/" ++ branch

/-- The informational log emitted when the branch migration fires
(lootthread.cpp lines 442-443). -/
def migrateBranchLogs (branch : Str) : List LogEntry :=
  if branch ∈ oldDefaultBranches then
    [(LogLevel.info, str "Updating masterlist repository branch from " ++
        branch ++ str " to " ++ DEFAULT_MASTERLIST_BRANCH)]
  else []

/-- The VR-specific repository redirections (lootthread.cpp lines 447-461):
Skyrim VR entries pointing at the SkyrimSE repository and Fallout 4 VR
entries pointing at the Fallout 4 repository are redirected, with an info
log (whose first message lacks a space after from, as in the source). -/
def vrRedirect (gid : GameId) (url : Str) : Str × List LogEntry :=
  if gid = .tes5vr ∧ url = str "https://github.com/loot/skyrimse.git" then
    (str "https://github.com/loot/skyrimvr.git",
     [(LogLevel.info, str "Updating masterlist repository URL from" ++ url ++
        str " to " ++ str "https://github.com/loot/skyrimvr.git")])
  else if gid = .fo4vr ∧ url = str "https://github.com/loot/fallout4.git" then
    (str "https://github.com/loot/fallout4vr.git",
     [(LogLevel.info, str "Updating masterlist repository URL from " ++ url ++
        str " to " ++ str "https://github.com/loot/fallout4vr.git")])
  else (url, [])

/-- The warning emitted for a local repository whose configured branch is
not checked out (lootthread.cpp lines 467-475). -/
def localWarnMsg (url branch : Str) : Str :=
  str "The URL " ++ url ++
    str " is a local Git repository path but the configured branch " ++
    branch ++
    str " is not checked out. LOOT will use the path as the masterlist " ++
    str "source, but there may be unexpected differences in the loaded " ++
    str "metadata if the " ++ branch ++
    str " branch is not manually checked out before the " ++
    str "next time the masterlist is updated."

/-- The warning emitted when the URL is neither local nor on GitHub
(lootthread.cpp lines 484-486). -/
def noMigrateWarnMsg : Str :=
  str "Cannot migrate masterlist repository settings as the URL does not " ++
    str "point to a repository on GitHub."

/-- migrateMasterlistRepoSettings (lootthread.cpp lines 435-495): migrate
the branch, apply the VR redirections, then either accept a local
repository path, rewrite a GitHub URL to its raw-content form, or report
that no migration is possible.  The second component collects the log
calls. -/
def migrateMasterlistRepoSettings (fs : FS) (gid : GameId) (url branch : Str) :
    Option Str × List LogEntry :=
  if isLocalPath fs (vrRedirect gid url).1 (str "masterlist.yaml") then
    (some (pathJoin (vrRedirect gid url).1 (str "masterlist.yaml")),
     migrateBranchLogs branch ++ (vrRedirect gid url).2 ++
       (if isBranchCheckedOut fs (vrRedirect gid url).1 (migrateBranch branch)
        then []
        else [(LogLevel.warning,
                localWarnMsg (vrRedirect gid url).1 (migrateBranch branch))]))
  else
    match githubMatch (vrRedirect gid url).1 with
    | some (o, r) =>
      (some (rawUrl o r (migrateBranch branch)),
       migrateBranchLogs branch ++ (vrRedirect gid url).2)
    | none =>
      (none,
       migrateBranchLogs branch ++ (vrRedirect gid url).2 ++
         [(LogLevel.warning, noMigrateWarnMsg)])

/-- The official per-game masterlist repository names
(lootthread.cpp lines 499-501), in source order. -/
def officialMasterlistRepos : List Str :=
  [str "morrowind", str "oblivion", str "skyrim", str "skyrimse",
   str "skyrimvr", str "fallout3", str "falloutnv", str "fallout4",
   str "fallout4vr", str "enderal"]

/-- All repository-name and superseded-branch combinations, in the
iteration order of the two nested loops (lootthread.cpp lines 503-504). -/
def legacyPairs : List (Str × Str) :=
  officialMasterlistRepos.flatMap (fun r => oldDefaultBranches.map (fun b => (r, b)))

/-- migrateMasterlistSource (lootthread.cpp lines 497-520): an explicit
source exactly equal to one of the constructed legacy raw URLs is replaced
by the catalog's current default URL for that repository, with an info log;
anything else is returned unchanged. -/
def migrateMasterlistSource (source : Str) : Str × List LogEntry :=
  match legacyPairs.find? (fun p => rawUrl (str "loot") p.1 p.2 == source) with
  | some p =>
    (GetDefaultMasterlistUrl p.1,
     [(LogLevel.info, str "Migrating masterlist source from " ++ source ++
        str " to " ++ GetDefaultMasterlistUrl p.1)])
  | none => (source, [])

/-- Outcome of the masterlist-source block of one matched entry
(lootthread.cpp lines 234-245): ub marks the dereference of an empty
optional (repo or branch absent with no explicit source), which the C++
standard leaves undefined; ok none means the entry sets no source and the
profile keeps its prior value. -/
inductive SourceOutcome where
  | ub
  | ok (s : Option Str)
deriving DecidableEq, Repr

/-- The source-resolution step for one matched entry (lootthread.cpp lines
234-245): an explicit masterlistSource is routed through
migrateMasterlistSource; otherwise the repo and branch values are
dereferenced unchecked and routed through migrateMasterlistRepoSettings. -/
def resolveSource (fs : FS) (gid : GameId)
    (explicitSource repo branch : Option Str) : SourceOutcome :=
  match explicitSource with
  | some s => .ok (some (migrateMasterlistSource s).1)
  | none =>
    match repo, branch with
    | some u, some b => .ok (migrateMasterlistRepoSettings fs gid u b).1
    | _, _ => .ub

/-- C2: when the (possibly VR-redirected) URL is not a local repository
path, the migration returns exactly the raw-content URL built from the two
regex capture groups and the possibly-migrated branch whenever the URL
matches the GitHub pattern (case-insensitively, with optional .git suffix
and optional trailing slash); when it does not match, the migration returns
none, emits a warning log, and the caller-facing source step produces no
source value (the prior source is kept). -/
theorem migrate_github_url_spec (fs : FS) (gid : GameId) (url branch : Str)
    (hLocal : isLocalPath fs (vrRedirect gid url).1 (str "masterlist.yaml") = false) :
    (∀ o r, githubMatch (vrRedirect gid url).1 = some (o, r) →
      (migrateMasterlistRepoSettings fs gid url branch).1 =
        some (rawUrl o r (migrateBranch branch)) ∧
      GithubDecomp (vrRedirect gid url).1 o r) ∧
    (githubMatch (vrRedirect gid url).1 = none →
      (migrateMasterlistRepoSettings fs gid url branch).1 = none ∧
      (LogLevel.warning, noMigrateWarnMsg) ∈
        (migrateMasterlistRepoSettings fs gid url branch).2 ∧
      (∀ o r, ¬ GithubDecomp (vrRedirect gid url).1 o r) ∧
      resolveSource fs gid none (some url) (some branch) = .ok none) := by
  constructor
  · intro o r hm
    refine ⟨?_, githubMatch_sound hm⟩
    unfold migrateMasterlistRepoSettings
    rw [if_neg (by simp [hLocal]), hm]
  · intro hm
    have h1 : migrateMasterlistRepoSettings fs gid url branch =
        (none, migrateBranchLogs branch ++ (vrRedirect gid url).2 ++
          [(LogLevel.warning, noMigrateWarnMsg)]) := by
      unfold migrateMasterlistRepoSettings
      rw [if_neg (by simp [hLocal]), hm]
    have h2 : resolveSource fs gid none (some url) (some branch) =
        .ok (migrateMasterlistRepoSettings fs gid url branch).1 := rfl
    refine ⟨by rw [h1], by rw [h1]; simp, githubMatch_none_no_decomp hm, ?_⟩
    rw [h2, h1]

theorem migrate_github_url_spec_witness :
    (migrateMasterlistRepoSettings emptyFS GameId.tes4
        (str "https://github.com/loot/oblivion.git") (str "v0.8")).1 =
      some (rawUrl (str "loot") (str "oblivion") (migrateBranch (str "v0.8"))) ∧
    GithubDecomp
      (vrRedirect GameId.tes4 (str "https://github.com/loot/oblivion.git")).1
      (str "loot") (str "oblivion") :=
  (migrate_github_url_spec emptyFS GameId.tes4
      (str "https://github.com/loot/oblivion.git") (str "v0.8")
      (by decide)).1 (str "loot") (str "oblivion") (by decide)

/-! ### Exactness of the legacy-URL table and idempotence of resolution -/

/-- The fixed prefix of every raw masterlist URL. -/
def rawUrlPre : Str := str "https://raw.githubusercontent.com/"

theorem rawUrl_eq (o r b : Str) :
    rawUrl o r b =
      rawUrlPre ++ (o ++ '/' :: (r ++ '/' :: (b ++ str "/masterlist.yaml"))) := by
  simp [rawUrl, rawUrlPre]

theorem rawUrl_inj {o r b o' r' b' : Str} (ho : '/' ∉ o) (ho' : '/' ∉ o')
    (hr : '/' ∉ r) (hr' : '/' ∉ r') (h : rawUrl o r b = rawUrl o' r' b') :
    o = o' ∧ r = r' ∧ b = b' := by
  rw [rawUrl_eq, rawUrl_eq] at h
  have h0 := List.append_cancel_left h
  obtain ⟨e1, e2⟩ := seg_inj o o' _ _ ho ho' h0
  obtain ⟨e3, e4⟩ := seg_inj r r' _ _ hr hr' e2
  exact ⟨e1, e3, List.append_cancel_right e4⟩

theorem repos_no_slash : ∀ rp ∈ officialMasterlistRepos, '/' ∉ rp := by decide

theorem loot_no_slash : ('/' : Char) ∉ str "loot" := by decide

theorem legacyPairs_mem {p : Str × Str} (hp : p ∈ legacyPairs) :
    p.1 ∈ officialMasterlistRepos ∧ p.2 ∈ oldDefaultBranches := by
  unfold legacyPairs at hp
  obtain ⟨rp, hrp, hmem⟩ := List.mem_flatMap.mp hp
  obtain ⟨bb, hbb, hpe⟩ := List.mem_map.mp hmem
  rw [← hpe]
  exact ⟨hrp, hbb⟩

theorem find?_eq_some_of_mem_unique {α : Type} {p : α → Bool} {l : List α}
    {x : α} (hmem : x ∈ l) (hx : p x = true)
    (huniq : ∀ y ∈ l, p y = true → y = x) :
    l.find? p = some x := by
  induction l with
  | nil => cases hmem
  | cons a t ih =>
    by_cases ha : p a
    · rw [List.find?_cons_of_pos _ ha, huniq a (List.mem_cons_self a t) ha]
    · rw [List.find?_cons_of_neg _ ha]
      rcases List.mem_cons.mp hmem with rfl | hmem'
      · exact absurd hx ha
      · exact ih hmem' (fun y hy hpy => huniq y (List.mem_cons_of_mem _ hy) hpy)

theorem migrateMasterlistSource_self_of_not_legacy {s : Str}
    (h : ∀ p ∈ legacyPairs, rawUrl (str "loot") p.1 p.2 ≠ s) :
    migrateMasterlistSource s = (s, []) := by
  unfold migrateMasterlistSource
  have hf : legacyPairs.find? (fun p => rawUrl (str "loot") p.1 p.2 == s) = none := by
    rw [List.find?_eq_none]
    intro p hp
    simpa using h p hp
  rw [hf]

theorem rawUrl_not_legacy {o r b : Str} (ho : '/' ∉ o) (hr : '/' ∉ r)
    (hb : b ∉ oldDefaultBranches) :
    ∀ p ∈ legacyPairs, rawUrl (str "loot") p.1 p.2 ≠ rawUrl o r b := by
  intro p hp heq
  obtain ⟨hp1, hp2⟩ := legacyPairs_mem hp
  obtain ⟨_, _, e3⟩ :=
    rawUrl_inj loot_no_slash ho (repos_no_slash p.1 hp1) hr heq
  exact hb (e3 ▸ hp2)

/-- C6: explicit-source migration is an exhaustive exact-match table: a
source exactly equal to the legacy raw URL of any official repository with
any superseded branch becomes the catalog's current default URL for that
repository, with an info log; every other source string comes back
unmodified with no log, so no substring or pattern matching happens. -/
theorem migrateMasterlistSource_spec :
    (∀ rp ∈ officialMasterlistRepos, ∀ b ∈ oldDefaultBranches,
      migrateMasterlistSource (rawUrl (str "loot") rp b) =
        (GetDefaultMasterlistUrl rp,
         [(LogLevel.info,
           str "Migrating masterlist source from " ++ rawUrl (str "loot") rp b ++
             str " to " ++ GetDefaultMasterlistUrl rp)])) ∧
    (∀ s, (∀ rp ∈ officialMasterlistRepos, ∀ b ∈ oldDefaultBranches,
        s ≠ rawUrl (str "loot") rp b) →
      migrateMasterlistSource s = (s, [])) := by
  constructor
  · intro rp hrp b hb
    have hfind : legacyPairs.find?
        (fun p => rawUrl (str "loot") p.1 p.2 == rawUrl (str "loot") rp b) =
          some (rp, b) := by
      apply find?_eq_some_of_mem_unique
      · exact List.mem_flatMap.mpr ⟨rp, hrp, List.mem_map.mpr ⟨b, hb, rfl⟩⟩
      · simp
      · intro y hy hpy
        obtain ⟨hy1, _⟩ := legacyPairs_mem hy
        have heq : rawUrl (str "loot") y.1 y.2 = rawUrl (str "loot") rp b := by
          simpa using hpy
        obtain ⟨_, e2, e3⟩ := rawUrl_inj loot_no_slash loot_no_slash
          (repos_no_slash y.1 hy1) (repos_no_slash rp hrp) heq
        cases y
        simp only at e2 e3
        rw [e2, e3]
    unfold migrateMasterlistSource
    rw [hfind]
  · intro s hs
    apply migrateMasterlistSource_self_of_not_legacy
    intro p hp heq
    obtain ⟨hp1, hp2⟩ := legacyPairs_mem hp
    exact hs p.1 hp1 p.2 hp2 heq.symm

theorem migrateMasterlistSource_spec_witness :
    migrateMasterlistSource (rawUrl (str "loot") (str "skyrim") (str "v0.7")) =
      (GetDefaultMasterlistUrl (str "skyrim"),
       [(LogLevel.info,
         str "Migrating masterlist source from " ++
           rawUrl (str "loot") (str "skyrim") (str "v0.7") ++
           str " to " ++ GetDefaultMasterlistUrl (str "skyrim"))]) ∧
    migrateMasterlistSource (str "https://example.com/not-github") =
      (str "https://example.com/not-github", []) :=
  ⟨migrateMasterlistSource_spec.1 (str "skyrim") (by decide) (str "v0.7")
      (by decide),
   migrateMasterlistSource_spec.2 (str "https://example.com/not-github")
      (by decide)⟩

theorem isPrefixOf_iff_take {l u : Str} :
    l.isPrefixOf u = true ↔ u.take l.length = l := by
  induction l generalizing u with
  | nil => simp [List.isPrefixOf]
  | cons a t ih =>
    cases u with
    | nil => simp [List.isPrefixOf]
    | cons b v =>
      simp only [List.isPrefixOf, List.length_cons, List.take_succ_cons,
        Bool.and_eq_true, beq_iff_eq, List.cons.injEq, ih]
      exact ⟨fun ⟨h1, h2⟩ => ⟨h1.symm, h2⟩, fun ⟨h1, h2⟩ => ⟨h1.symm, h2⟩⟩

theorem localOut_not_legacy {u2 : Str}
    (hpre : (str "https://").isPrefixOf u2 = false) :
    ∀ p ∈ legacyPairs,
      rawUrl (str "loot") p.1 p.2 ≠ pathJoin u2 (str "masterlist.yaml") := by
  intro p hp heq
  by_cases hlen : 8 ≤ u2.length
  · have h8 := congrArg (List.take 8) heq
    rw [rawUrl_eq] at h8
    rw [List.take_append_of_le_length
      (show (8 : Nat) ≤ rawUrlPre.length by decide)] at h8
    unfold pathJoin at h8
    rw [List.take_append_of_le_length hlen] at h8
    have hyes : (str "https://").isPrefixOf u2 = true := by
      rw [isPrefixOf_iff_take]
      have hl8 : (str "https://").length = 8 := by decide
      rw [hl8, ← h8]
      decide
    rw [hyes] at hpre
    cases hpre
  · push_neg at hlen
    have hk := congrArg (List.take u2.length) heq
    rw [rawUrl_eq] at hk
    rw [List.take_append_of_le_length
      (show u2.length ≤ rawUrlPre.length by
        have : rawUrlPre.length = 34 := by decide
        omega)] at hk
    unfold pathJoin at hk
    rw [List.take_append_of_le_length (le_refl _), List.take_length] at hk
    have h9 := congrArg (List.take 9) heq
    rw [rawUrl_eq] at h9
    rw [List.take_append_of_le_length
      (show (9 : Nat) ≤ rawUrlPre.length by decide)] at h9
    unfold pathJoin at h9
    have hu9 : u2.length ≤ 9 := by omega
    rw [List.take_append_eq_append_take, List.take_of_length_le hu9] at h9
    obtain ⟨k, hk2⟩ : ∃ k, u2.length = k := ⟨_, rfl⟩
    rw [hk2] at h9 hlen
    rw [← hk, hk2] at h9
    have hfin : ∀ k : Nat, k < 8 →
        rawUrlPre.take 9 ≠
          rawUrlPre.take k ++ ('/' :: str "masterlist.yaml").take (9 - k) := by
      decide
    exact hfin k hlen h9

/-- C5: masterlist source resolution is idempotent: whenever resolveSource
produces a resolved source string, feeding that string back in as the
explicit source (with the same identity, repo and branch inputs) resolves
to the same string. -/
theorem resolveSource_idempotent (fs : FS) (gid : GameId)
    (es repo branch : Option Str) (out : Str)
    (h : resolveSource fs gid es repo branch = .ok (some out)) :
    resolveSource fs gid (some out) repo branch = .ok (some out) := by
  have hred : resolveSource fs gid (some out) repo branch =
      .ok (some (migrateMasterlistSource out).1) := rfl
  rw [hred]
  suffices hfix : (migrateMasterlistSource out).1 = out by rw [hfix]
  cases es with
  | some s =>
    have h' : (migrateMasterlistSource s).1 = out := by
      have e : resolveSource fs gid (some s) repo branch =
          .ok (some (migrateMasterlistSource s).1) := rfl
      rw [e] at h
      injection h with h2
      injection h2
    cases hf : legacyPairs.find? (fun p => rawUrl (str "loot") p.1 p.2 == s) with
    | none =>
      have e : migrateMasterlistSource s = (s, []) := by
        unfold migrateMasterlistSource
        rw [hf]
      rw [e] at h'
      rw [← h', e]
    | some p =>
      have hp_mem : p ∈ legacyPairs := List.mem_of_find?_eq_some hf
      have hp1 := (legacyPairs_mem hp_mem).1
      have hout : out = GetDefaultMasterlistUrl p.1 := by
        unfold migrateMasterlistSource at h'
        rw [hf] at h'
        exact h'.symm
      rw [hout]
      have hself := migrateMasterlistSource_self_of_not_legacy
        (rawUrl_not_legacy loot_no_slash (repos_no_slash p.1 hp1)
          default_branch_not_old)
      show (migrateMasterlistSource
        (rawUrl (str "loot") p.1 DEFAULT_MASTERLIST_BRANCH)).1 = _
      rw [hself]
      rfl
  | none =>
    cases repo with
    | none =>
      cases branch <;> exact absurd h (fun he => SourceOutcome.noConfusion he)
    | some u =>
      cases branch with
      | none => exact absurd h (fun he => SourceOutcome.noConfusion he)
      | some b =>
        have e : resolveSource fs gid none (some u) (some b) =
            .ok (migrateMasterlistRepoSettings fs gid u b).1 := rfl
        rw [e] at h
        injection h with h2
        unfold migrateMasterlistRepoSettings at h2
        by_cases hl : isLocalPath fs (vrRedirect gid u).1 (str "masterlist.yaml")
        · rw [if_pos hl] at h2
          have hout : out = pathJoin (vrRedirect gid u).1 (str "masterlist.yaml") :=
            (Option.some.inj h2).symm
          have hpre : (str "https://").isPrefixOf (vrRedirect gid u).1 = false := by
            unfold isLocalPath at hl
            by_cases hb2 : ((str "http://").isPrefixOf (vrRedirect gid u).1 ||
                (str "https://").isPrefixOf (vrRedirect gid u).1) = true
            · rw [if_pos hb2] at hl
              cases hl
            · simp only [Bool.or_eq_true, not_or, Bool.not_eq_true] at hb2
              exact hb2.2
          rw [hout]
          have hself := migrateMasterlistSource_self_of_not_legacy
            (localOut_not_legacy hpre)
          rw [hself]
        · rw [if_neg hl] at h2
          split at h2
          · rename_i o r hm
            have hout : out = rawUrl o r (migrateBranch b) :=
              (Option.some.inj h2).symm
            obtain ⟨_, _, _, _, _, hos, _, hrs, _⟩ := githubMatch_sound hm
            rw [hout]
            have hself := migrateMasterlistSource_self_of_not_legacy
              (rawUrl_not_legacy hos hrs (migrateBranch_not_old b))
            rw [hself]
          · rename_i hm
            exact Option.noConfusion h2

theorem resolveSource_idempotent_witness :
    resolveSource emptyFS GameId.tes4
        (some (str "https://example.com/x")) none none =
      SourceOutcome.ok (some (str "https://example.com/x")) :=
  resolveSource_idempotent emptyFS GameId.tes4
    (some (str "https://example.com/x")) none none
    (str "https://example.com/x") (by decide)

/-! ### Settings resolution (LOOTWorker::getSettings, lines 145-275) -/

/-- The throw sites inside the per-entry try block; every one of them is
caught by the catch-all and makes the scan skip the entry. -/
inductive EntryErr where
  | notATable
  | missingGameId
  | invalidGameType
  | missingFolder
  | conflictingConfiguration
deriving DecidableEq, Repr

/-- The declared-type dispatch (lootthread.cpp lines 175-199), including
the Nehrim, Enderal and Enderal SE disambiguation of the shared type
strings. -/
def resolveGameId (cat : Catalog) (fs : FS) (gameType : Str) (e : GameEntry) :
    Except EntryErr GameId :=
  if gameType = str "Morrowind" then .ok .tes3
  else if gameType = str "Oblivion" then
    .ok (if IsNehrim cat fs e then .nehrim else .tes4)
  else if gameType = str "Skyrim" then
    .ok (if IsEnderal fs e then .enderal else .tes5)
  else if gameType = str "SkyrimSE" ∨ gameType = str "Skyrim Special Edition" then
    .ok (if IsEnderalSE fs e then .enderalse else .tes5se)
  else if gameType = str "Skyrim VR" then .ok .tes5vr
  else if gameType = str "Fallout3" then .ok .fo3
  else if gameType = str "FalloutNV" then .ok .fonv
  else if gameType = str "Fallout4" then .ok .fo4
  else if gameType = str "Fallout4VR" then .ok .fo4vr
  else .error .invalidGameType

/-- Outcome of processing one games-array element: ub is the undefined
behaviour of dereferencing an absent repo or branch optional; err is a
thrown-and-caught per-entry error; noMatch is a type-class mismatch;
matched carries the merged settings assigned before the loop breaks. -/
inductive Outcome where
  | ub
  | err (e : EntryErr)
  | noMatch
  | matched (s : GameSettings)
deriving DecidableEq, Repr

/-- The historical folder rename (lootthread.cpp lines 206-211): a folder
equal to the legacy SkyrimSE type tag is rewritten when the type key holds
that tag. -/
def entryFolder (e : GameEntry) (folder0 : Str) : Str :=
  if e.type = some (str "SkyrimSE") ∧ folder0 = str "SkyrimSE" then
    str "Skyrim Special Edition"
  else folder0

/-- Processing of one games table (lootthread.cpp lines 158-265): resolve
the declared type, build candidate settings, and if the engine-type class
matches the requested profile's class, merge the optional overrides and
accept; the conflict of local_path and local_folder throws after the
source step. -/
def processEntry (cat : Catalog) (fs : FS) (cur : GameSettings)
    (e : GameEntry) : Outcome :=
  match e.gameId with
  | none => .err .missingGameId
  | some gt =>
    match resolveGameId cat fs gt e with
    | .error er => .err er
    | .ok gid =>
      match e.folder with
      | none => .err .missingFolder
      | some folder0 =>
        if (mkGameSettings cat gid (entryFolder e folder0)).gtype = cur.gtype then
          let s1 := match e.name with
            | some n => (mkGameSettings cat gid (entryFolder e folder0)).setName n
            | none => mkGameSettings cat gid (entryFolder e folder0)
          let s2 := match e.master with
            | some m => s1.setMaster m
            | none => s1
          let s3 := match e.minimumHeaderVersion with
            | some v => s2.setMinimumHeaderVersion v
            | none => s2
          match resolveSource fs gid e.masterlistSource e.repo e.branch with
          | .ub => .ub
          | .ok os =>
            let s4 := match os with
              | some src => s3.setMasterlistSource src
              | none => s3
            let s5 := match e.path with
              | some p => s4.setGamePath p
              | none => s4
            match e.localPath, e.localFolder with
            | some _, some _ => .err .conflictingConfiguration
            | some lp, none => .matched (s5.setGameLocalPath lp)
            | none, some lf => .matched (s5.setGameLocalFolder lf)
            | none, none => .matched s5
        else .noMatch

/-- One element of the games array: a table, or some other TOML value
(which throws and is skipped, lootthread.cpp lines 159-161). -/
inductive GamesItem where
  | table (e : GameEntry)
  | notTable
deriving DecidableEq, Repr

def processItem (cat : Catalog) (fs : FS) (cur : GameSettings) :
    GamesItem → Outcome
  | .table e => processEntry cat fs cur e
  | .notTable => .err .notATable

/-- The scan over the games array (lootthread.cpp lines 156-270): the first
matched entry replaces the profile and breaks; errors and mismatches skip;
undefined behaviour yields no defined result. -/
def scanGames (cat : Catalog) (fs : FS) (cur : GameSettings) :
    List GamesItem → Option GameSettings
  | [] => some cur
  | it :: rest =>
    match processItem cat fs cur it with
    | .matched s => some s
    | .ub => none
    | _ => scanGames cat fs cur rest

/-- The requested-game name table of LOOTWorker::setGame (lootthread.cpp
lines 57-76), keys lowercased as the lookup lowercases its input. -/
def gameNameMap : List (Str × GameId) :=
  [(str "morrowind", .tes3), (str "oblivion", .tes4),
   (str "fallout3", .fo3), (str "fallout4", .fo4),
   (str "fallout4vr", .fo4vr), (str "falloutnv", .fonv),
   (str "skyrim", .tes5), (str "skyrimse", .tes5se),
   (str "skyrimvr", .tes5vr), (str "nehrim", .nehrim),
   (str "enderal", .enderal), (str "enderalse", .enderalse),
   (str "starfield", .starfield)]

/-- setGame: case-insensitive lookup of the requested game name; none
models the invalid-game-name exception. -/
def setGame (gameName : Str) : Option GameId :=
  (gameNameMap.find? (fun p => p.1 == lowerStr gameName)).map (fun p => p.2)

/-- The gameId strings accepted by the settings scan (lootthread.cpp lines
175-199). -/
def recognizedGameTypes : List Str :=
  [str "Morrowind", str "Oblivion", str "Skyrim", str "SkyrimSE",
   str "Skyrim Special Edition", str "Skyrim VR", str "Fallout3",
   str "FalloutNV", str "Fallout4", str "Fallout4VR"]

theorem mkGameSettings_gtype (cat : Catalog) (id : GameId) (f : Str) :
    (mkGameSettings cat id f).gtype = GetGameType id := rfl

theorem scanGames_cons_matched {cat : Catalog} {fs : FS} {cur : GameSettings}
    {it : GamesItem} {s : GameSettings} (rest : List GamesItem)
    (h : processItem cat fs cur it = .matched s) :
    scanGames cat fs cur (it :: rest) = some s := by
  simp only [scanGames, h]

theorem scanGames_cons_skip {cat : Catalog} {fs : FS} {cur : GameSettings}
    {it : GamesItem} (rest : List GamesItem)
    (h : processItem cat fs cur it = .noMatch ∨
      ∃ er, processItem cat fs cur it = .err er) :
    scanGames cat fs cur (it :: rest) = scanGames cat fs cur rest := by
  rcases h with h | ⟨er, h⟩ <;> simp only [scanGames, h]

theorem scanGames_all_skip {cat : Catalog} {fs : FS} {cur : GameSettings}
    {items : List GamesItem}
    (h : ∀ it ∈ items, processItem cat fs cur it = .noMatch ∨
      ∃ er, processItem cat fs cur it = .err er) :
    scanGames cat fs cur items = some cur := by
  induction items with
  | nil => rfl
  | cons it rest ih =>
    rw [scanGames_cons_skip rest (h it (List.mem_cons_self it rest))]
    exact ih (fun x hx => h x (List.mem_cons_of_mem _ hx))

theorem processEntry_noMatch_of_class_ne {cat : Catalog} {fs : FS}
    {cur : GameSettings} {e : GameEntry} {gt : Str} {gid : GameId} {folder0 : Str}
    (hgt : e.gameId = some gt) (hres : resolveGameId cat fs gt e = .ok gid)
    (hfold : e.folder = some folder0) (hne : GetGameType gid ≠ cur.gtype) :
    processEntry cat fs cur e = .noMatch := by
  unfold processEntry
  simp only [hgt, hres, hfold]
  rw [mkGameSettings_gtype, if_neg hne]

theorem processEntry_matched_class_eq {cat : Catalog} {fs : FS}
    {cur : GameSettings} {e : GameEntry} {gt : Str} {gid : GameId}
    {folder0 : Str} {s : GameSettings}
    (hgt : e.gameId = some gt) (hres : resolveGameId cat fs gt e = .ok gid)
    (hfold : e.folder = some folder0)
    (h : processEntry cat fs cur e = .matched s) :
    GetGameType gid = cur.gtype := by
  by_contra hne
  rw [processEntry_noMatch_of_class_ne hgt hres hfold hne] at h
  exact Outcome.noConfusion h

theorem resolveSource_ok_of_defined {fs : FS} {gid : GameId} {e : GameEntry}
    (hsrc : e.masterlistSource.isSome = true ∨
      (e.repo.isSome = true ∧ e.branch.isSome = true)) :
    ∃ os, resolveSource fs gid e.masterlistSource e.repo e.branch = .ok os := by
  cases hms : e.masterlistSource with
  | some v => exact ⟨_, rfl⟩
  | none =>
    rcases hsrc with hs | ⟨hr, hb⟩
    · rw [hms] at hs; cases hs
    · obtain ⟨u, hu⟩ := Option.isSome_iff_exists.mp hr
      obtain ⟨b, hb2⟩ := Option.isSome_iff_exists.mp hb
      exact ⟨_, by unfold resolveSource; rw [hu, hb2]⟩

theorem processEntry_conflict {cat : Catalog} {fs : FS} {cur : GameSettings}
    {e : GameEntry} {gt : Str} {gid : GameId} {folder0 lp lf : Str}
    (hgt : e.gameId = some gt) (hres : resolveGameId cat fs gt e = .ok gid)
    (hfold : e.folder = some folder0) (hc : GetGameType gid = cur.gtype)
    (hlp : e.localPath = some lp) (hlf : e.localFolder = some lf)
    (hsrc : e.masterlistSource.isSome = true ∨
      (e.repo.isSome = true ∧ e.branch.isSome = true)) :
    processEntry cat fs cur e = .err .conflictingConfiguration := by
  obtain ⟨os, hos⟩ := @resolveSource_ok_of_defined fs gid e hsrc
  unfold processEntry
  simp only [hgt, hres, hfold, mkGameSettings_gtype, hos, hlp, hlf]
  rw [if_pos hc]

theorem processEntry_matched_of_class_eq {cat : Catalog} {fs : FS}
    {cur : GameSettings} {e : GameEntry} {gt : Str} {gid : GameId} {folder0 : Str}
    (hgt : e.gameId = some gt) (hres : resolveGameId cat fs gt e = .ok gid)
    (hfold : e.folder = some folder0) (hc : GetGameType gid = cur.gtype)
    (hsrc : e.masterlistSource.isSome = true ∨
      (e.repo.isSome = true ∧ e.branch.isSome = true))
    (hnc : ¬(e.localPath.isSome = true ∧ e.localFolder.isSome = true)) :
    ∃ s, processEntry cat fs cur e = .matched s := by
  obtain ⟨os, hos⟩ := @resolveSource_ok_of_defined fs gid e hsrc
  unfold processEntry
  simp only [hgt, hres, hfold, mkGameSettings_gtype, hos]
  rw [if_pos hc]
  cases hlp : e.localPath with
  | some lp =>
    cases hlf : e.localFolder with
    | some lf => exact absurd ⟨by rw [hlp]; rfl, by rw [hlf]; rfl⟩ hnc
    | none => exact ⟨_, rfl⟩
  | none =>
    cases hlf : e.localFolder with
    | some lf => exact ⟨_, rfl⟩
    | none => exact ⟨_, rfl⟩

theorem resolveGameId_not_starfield {cat : Catalog} {fs : FS} {gt : Str}
    {e : GameEntry} {gid : GameId}
    (h : resolveGameId cat fs gt e = .ok gid) :
    GetGameType gid ≠ GameType.starfield := by
  unfold resolveGameId at h
  repeat' split at h
  all_goals first
    | exact Except.noConfusion h
    | (injection h with he; subst he; decide)

theorem processEntry_starfield_skip (cat : Catalog) (fs : FS) (folder : Str)
    (e : GameEntry) :
    processEntry cat fs (mkGameSettings cat .starfield folder) e = .noMatch ∨
    ∃ er, processEntry cat fs (mkGameSettings cat .starfield folder) e = .err er := by
  cases hgt : e.gameId with
  | none => exact Or.inr ⟨_, by unfold processEntry; rw [hgt]⟩
  | some gt =>
    cases hres : resolveGameId cat fs gt e with
    | error er =>
      exact Or.inr ⟨er, by unfold processEntry; simp only [hgt, hres]⟩
    | ok gid =>
      cases hfold : e.folder with
      | none =>
        exact Or.inr ⟨.missingFolder, by unfold processEntry; simp only [hgt, hres, hfold]⟩
      | some f0 =>
        left
        apply processEntry_noMatch_of_class_ne hgt hres hfold
        rw [mkGameSettings_gtype]
        exact resolveGameId_not_starfield hres

theorem processItem_starfield_skip (cat : Catalog) (fs : FS) (folder : Str)
    (it : GamesItem) :
    processItem cat fs (mkGameSettings cat .starfield folder) it = .noMatch ∨
    ∃ er, processItem cat fs (mkGameSettings cat .starfield folder) it = .err er := by
  cases it with
  | notTable => exact Or.inr ⟨.notATable, rfl⟩
  | table e => exact processEntry_starfield_skip cat fs folder e

/-- C1: the scan accepts the first entry whose engine-type class equals the
requested profile's class and stops there: after a match the remaining
items (and any fields they carry) are irrelevant to the result; error and
mismatch outcomes advance the scan in order; when every item errs or
mismatches, the resolved profile is exactly the initial catalog-default
profile; and an entry that resolves to a game id is accepted or rejected by
class equality alone (a class mismatch is never accepted, a class match
with a defined source step and no local-path conflict is accepted). -/
theorem settings_scan_spec (cat : Catalog) (fs : FS) :
    (∀ cur it s rest rest', processItem cat fs cur it = .matched s →
      scanGames cat fs cur (it :: rest) = some s ∧
      scanGames cat fs cur (it :: rest) = scanGames cat fs cur (it :: rest')) ∧
    (∀ cur it rest, (processItem cat fs cur it = .noMatch ∨
        ∃ er, processItem cat fs cur it = .err er) →
      scanGames cat fs cur (it :: rest) = scanGames cat fs cur rest) ∧
    (∀ cur items, (∀ it ∈ items, processItem cat fs cur it = .noMatch ∨
        ∃ er, processItem cat fs cur it = .err er) →
      scanGames cat fs cur items = some cur) ∧
    (∀ cur e gt gid folder0, e.gameId = some gt →
      resolveGameId cat fs gt e = .ok gid → e.folder = some folder0 →
      ((GetGameType gid ≠ cur.gtype → processEntry cat fs cur e = .noMatch) ∧
       (∀ s, processEntry cat fs cur e = .matched s →
         GetGameType gid = cur.gtype) ∧
       (GetGameType gid = cur.gtype →
        (e.masterlistSource.isSome = true ∨
          (e.repo.isSome = true ∧ e.branch.isSome = true)) →
        ¬(e.localPath.isSome = true ∧ e.localFolder.isSome = true) →
        ∃ s, processEntry cat fs cur e = .matched s))) := by
  refine ⟨?_, ?_, ?_, ?_⟩
  · intro cur it s rest rest' h
    exact ⟨scanGames_cons_matched rest h,
      by rw [scanGames_cons_matched rest h, scanGames_cons_matched rest' h]⟩
  · intro cur it rest h
    exact scanGames_cons_skip rest h
  · intro cur items h
    exact scanGames_all_skip h
  · intro cur e gt gid folder0 hgt hres hfold
    refine ⟨processEntry_noMatch_of_class_ne hgt hres hfold, ?_, ?_⟩
    · intro s hs
      exact processEntry_matched_class_eq hgt hres hfold hs
    · intro hc hsrc hnc
      exact processEntry_matched_of_class_eq hgt hres hfold hc hsrc hnc

theorem settings_scan_spec_witness :
    scanGames trivCatalog emptyFS
        (mkGameSettings trivCatalog GameId.tes4 (str "Oblivion"))
        [GamesItem.notTable] =
      some (mkGameSettings trivCatalog GameId.tes4 (str "Oblivion")) :=
  (settings_scan_spec trivCatalog emptyFS).2.2.1
    (mkGameSettings trivCatalog GameId.tes4 (str "Oblivion"))
    [GamesItem.notTable]
    (by intro it hit
        rw [List.mem_singleton.mp hit]
        exact Or.inr ⟨.notATable, rfl⟩)

/-- C10: the gameId strings the scan recognises are exactly the ten listed
(every other declared value raises the invalid-type error, every listed one
resolves); Starfield, Nehrim, Enderal and EnderalSE are nevertheless all
accepted as requested game names by setGame; consequently a Starfield run
can never match an entry and always keeps the catalog-default profile. -/
theorem recognized_types_spec (cat : Catalog) (fs : FS) :
    (∀ gt e, gt ∉ recognizedGameTypes →
      resolveGameId cat fs gt e = .error .invalidGameType) ∧
    (∀ gt ∈ recognizedGameTypes, ∀ e, ∃ gid,
      resolveGameId cat fs gt e = .ok gid) ∧
    (setGame (str "Starfield") = some .starfield ∧
     setGame (str "Nehrim") = some .nehrim ∧
     setGame (str "Enderal") = some .enderal ∧
     setGame (str "EnderalSE") = some .enderalse) ∧
    (∀ folder items,
      scanGames cat fs (mkGameSettings cat .starfield folder) items =
        some (mkGameSettings cat .starfield folder)) := by
  refine ⟨?_, ?_, ⟨by decide, by decide, by decide, by decide⟩, ?_⟩
  · intro gt e h
    have h1 : ¬ gt = str "Morrowind" := fun he => h (by rw [he]; decide)
    have h2 : ¬ gt = str "Oblivion" := fun he => h (by rw [he]; decide)
    have h3 : ¬ gt = str "Skyrim" := fun he => h (by rw [he]; decide)
    have h4 : ¬ gt = str "SkyrimSE" := fun he => h (by rw [he]; decide)
    have h5 : ¬ gt = str "Skyrim Special Edition" :=
      fun he => h (by rw [he]; decide)
    have h6 : ¬ gt = str "Skyrim VR" := fun he => h (by rw [he]; decide)
    have h7 : ¬ gt = str "Fallout3" := fun he => h (by rw [he]; decide)
    have h8 : ¬ gt = str "FalloutNV" := fun he => h (by rw [he]; decide)
    have h9 : ¬ gt = str "Fallout4" := fun he => h (by rw [he]; decide)
    have h10 : ¬ gt = str "Fallout4VR" := fun he => h (by rw [he]; decide)
    unfold resolveGameId
    rw [if_neg h1, if_neg h2, if_neg h3, if_neg (not_or.mpr ⟨h4, h5⟩),
      if_neg h6, if_neg h7, if_neg h8, if_neg h9, if_neg h10]
  · intro gt hgt e
    fin_cases hgt <;> exact ⟨_, rfl⟩
  · intro folder items
    exact scanGames_all_skip (fun it _ => processItem_starfield_skip cat fs folder it)

theorem recognized_types_spec_witness :
    resolveGameId trivCatalog emptyFS (str "Starfield") ({} : GameEntry) =
      Except.error EntryErr.invalidGameType ∧
    scanGames trivCatalog emptyFS
        (mkGameSettings trivCatalog GameId.starfield (str "Starfield"))
        [GamesItem.table { gameId := some (str "Starfield") }] =
      some (mkGameSettings trivCatalog GameId.starfield (str "Starfield")) :=
  ⟨(recognized_types_spec trivCatalog emptyFS).1 (str "Starfield")
      ({} : GameEntry) (by decide),
   (recognized_types_spec trivCatalog emptyFS).2.2.2 (str "Starfield")
      [GamesItem.table { gameId := some (str "Starfield") }]⟩

/-- An entry with a matching declared type but no masterlistSource, repo or
branch keys: the source step dereferences empty optionals. -/
def missingRepoEntry : GameEntry :=
  { gameId := some (str "Oblivion"), folder := some (str "Oblivion") }

/-- C8: the code reaches undefined behaviour instead of treating the
absence of repo or branch as a per-entry error: with no explicit source,
resolveSource dereferences the absent optionals (modelled as the ub
outcome), both at the source step and through a whole matching entry. -/
theorem missing_repo_branch_ub :
    resolveSource emptyFS GameId.tes4 none none none = SourceOutcome.ub ∧
    resolveSource emptyFS GameId.tes4 none (some (str "u")) none =
      SourceOutcome.ub ∧
    processEntry trivCatalog emptyFS
        (mkGameSettings trivCatalog GameId.tes4 (str "Oblivion"))
        missingRepoEntry =
      Outcome.ub := by
  refine ⟨rfl, rfl, by decide⟩

/-- An entry with both local_path and local_folder set and no source keys. -/
def conflictEntry : GameEntry :=
  { gameId := some (str "Oblivion"), folder := some (str "Oblivion"),
    localPath := some (str "lp"), localFolder := some (str "lf") }

/-- C7 counterexample: an entry with both local_path and local_folder set
whose resolution does not fail with ConflictingConfiguration — the absent
repo and branch optionals are dereferenced first (undefined behaviour), so
the conflict check is never reached. -/
theorem conflict_claim_counterexample :
    conflictEntry.localPath.isSome = true ∧
    conflictEntry.localFolder.isSome = true ∧
    processEntry trivCatalog emptyFS
        (mkGameSettings trivCatalog GameId.tes4 (str "Oblivion"))
        conflictEntry ≠
      Outcome.err EntryErr.conflictingConfiguration ∧
    processEntry trivCatalog emptyFS
        (mkGameSettings trivCatalog GameId.tes4 (str "Oblivion"))
        conflictEntry =
      Outcome.ub := by
  refine ⟨rfl, rfl, by decide, by decide⟩

/-- C7 (amended): for every entry with both local_path and local_folder set
whose source step is defined (an explicit masterlistSource, or both repo
and branch present), the entry never changes the profile and the scan
continues with the remaining entries; and when its declared type resolves
and the engine-type class matches the requested profile, its resolution
fails with exactly ConflictingConfiguration. -/
theorem conflict_spec_amended (cat : Catalog) (fs : FS) (cur : GameSettings)
    (e : GameEntry) (lp lf : Str) (rest : List GamesItem)
    (hlp : e.localPath = some lp) (hlf : e.localFolder = some lf)
    (hsrc : e.masterlistSource.isSome = true ∨
      (e.repo.isSome = true ∧ e.branch.isSome = true)) :
    scanGames cat fs cur (GamesItem.table e :: rest) =
      scanGames cat fs cur rest ∧
    (∀ gt gid folder0, e.gameId = some gt →
      resolveGameId cat fs gt e = .ok gid → e.folder = some folder0 →
      GetGameType gid = cur.gtype →
      processEntry cat fs cur e = .err .conflictingConfiguration) := by
  constructor
  · apply scanGames_cons_skip
    show processEntry cat fs cur e = .noMatch ∨
      ∃ er, processEntry cat fs cur e = .err er
    cases hgt : e.gameId with
    | none => exact Or.inr ⟨_, by unfold processEntry; rw [hgt]⟩
    | some gt =>
      cases hres : resolveGameId cat fs gt e with
      | error er =>
        exact Or.inr ⟨er, by unfold processEntry; simp only [hgt, hres]⟩
      | ok gid =>
        cases hfold : e.folder with
        | none =>
          exact Or.inr ⟨.missingFolder,
            by unfold processEntry; simp only [hgt, hres, hfold]⟩
        | some f0 =>
          by_cases hc : GetGameType gid = cur.gtype
          · exact Or.inr ⟨_, processEntry_conflict hgt hres hfold hc hlp hlf hsrc⟩
          · exact Or.inl (processEntry_noMatch_of_class_ne hgt hres hfold hc)
  · intro gt gid folder0 hgt hres hfold hc
    exact processEntry_conflict hgt hres hfold hc hlp hlf hsrc

/-- The conflict entry with an explicit source, making the source step
defined. -/
def conflictEntryWithSource : GameEntry :=
  { gameId := some (str "Oblivion"), folder := some (str "Oblivion"),
    masterlistSource := some (str "src"),
    localPath := some (str "lp"), localFolder := some (str "lf") }

theorem conflict_spec_amended_witness :
    scanGames trivCatalog emptyFS
        (mkGameSettings trivCatalog GameId.tes4 (str "Oblivion"))
        [GamesItem.table conflictEntryWithSource] =
      scanGames trivCatalog emptyFS
        (mkGameSettings trivCatalog GameId.tes4 (str "Oblivion")) [] ∧
    (∀ gt gid folder0, conflictEntryWithSource.gameId = some gt →
      resolveGameId trivCatalog emptyFS gt conflictEntryWithSource = .ok gid →
      conflictEntryWithSource.folder = some folder0 →
      GetGameType gid =
        (mkGameSettings trivCatalog GameId.tes4 (str "Oblivion")).gtype →
      processEntry trivCatalog emptyFS
          (mkGameSettings trivCatalog GameId.tes4 (str "Oblivion"))
          conflictEntryWithSource =
        .err .conflictingConfiguration) :=
  conflict_spec_amended trivCatalog emptyFS
    (mkGameSettings trivCatalog GameId.tes4 (str "Oblivion"))
    conflictEntryWithSource (str "lp") (str "lf") [] (by decide) (by decide)
    (Or.inl (by decide))

/-! ### Report building (createJsonReport and helpers, lines 695-898) -/

/-- The JSON values the report builder manipulates. -/
inductive Json where
  | jstr (s : Str)
  | jbool (b : Bool)
  | jnum (n : Int)
  | jarr (xs : List Json)
  | jobj (fields : List (Str × Json))

/-- The emptiness test of the set helper (lootthread.cpp lines 695-710):
empty objects, arrays and strings are dropped. -/
def isEmptyJson : Json → Bool
  | .jobj [] => true
  | .jarr [] => true
  | .jstr [] => true
  | _ => false

/-- set (lootthread.cpp lines 695-710): insert a field unless its value is
an empty object, array or string.  A QJsonObject with pairwise-distinct
keys, as built here, is modelled by its association list. -/
def set (o : List (Str × Json)) (k : Str) (v : Json) : List (Str × Json) :=
  if isEmptyJson v then o else o ++ [(k, v)]

/-- loot::MessageType as consumed by toString (lootthread.cpp lines 26-38). -/
inductive MessageType where
  | say | warn | error
deriving DecidableEq, Repr

def messageTypeName : MessageType → Str
  | .say => str "info"
  | .warn => str "warn"
  | .error => str "error"

/-- One localised text variant of a message. -/
structure MessageContent where
  text : Str
deriving DecidableEq, Repr

/-- A loot message: type plus its content variants. -/
structure Message where
  mtype : MessageType
  content : List MessageContent
deriving DecidableEq, Repr

/-- A loot::File reference: plugin name and display name. -/
structure LootFile where
  fname : Str
  displayName : Str
deriving DecidableEq, Repr

/-- A plugin cleaning record (loot::PluginCleaningData). -/
structure CleaningData where
  crc : Int
  itm : Int
  deletedReferences : Int
  deletedNavmesh : Int
  cleaningUtility : Str
  detail : List MessageContent
deriving DecidableEq, Repr

/-- The per-plugin metadata returned by GetPluginMetadata. -/
structure PluginMetadata where
  incompatibilities : List LootFile
  messages : List Message
  dirty : List CleaningData
  clean : List CleaningData
deriving DecidableEq, Repr

/-- The game interface consumed by the report builder, with the external
libloot SelectMessageContent (language selection) as an abstract
capability: hasPlugin models GetPlugin returning non-null, masters the
plugin's master list. -/
structure GameIface where
  hasPlugin : Str → Bool
  masters : Str → List Str
  loadsArchive : Str → Bool
  isMaster : Str → Bool
  isLightPlugin : Str → Bool
  metadata : Str → Option PluginMetadata
  selectContent : List MessageContent → Option MessageContent

/-- createMessages (lootthread.cpp lines 790-804): messages with no
selectable content are dropped. -/
def createMessages (g : GameIface) (list : List Message) : Json :=
  .jarr (list.filterMap (fun m =>
    (g.selectContent m.content).map (fun sm =>
      .jobj [(str "type", .jstr (messageTypeName m.mtype)),
             (str "text", .jstr sm.text)])))

/-- createDirty (lootthread.cpp lines 806-832). -/
def createDirty (g : GameIface) (data : List CleaningData) : Json :=
  .jarr (data.map (fun d =>
    .jobj (set
      (set [(str "crc", Json.jnum d.crc), (str "itm", Json.jnum d.itm),
            (str "deletedReferences", Json.jnum d.deletedReferences),
            (str "deletedNavmesh", Json.jnum d.deletedNavmesh)]
        (str "cleaningUtility") (.jstr d.cleaningUtility))
      (str "info")
      (.jstr (match g.selectContent d.detail with
              | some sm => sm.text
              | none => [])))))

/-- createClean (lootthread.cpp lines 834-857). -/
def createClean (g : GameIface) (data : List CleaningData) : Json :=
  .jarr (data.map (fun d =>
    .jobj (set
      (set [(str "crc", Json.jnum d.crc)]
        (str "cleaningUtility") (.jstr d.cleaningUtility))
      (str "info")
      (.jstr (match g.selectContent d.detail with
              | some sm => sm.text
              | none => [])))))

/-- createIncompatibilities (lootthread.cpp lines 859-884): only
incompatibilities naming a present plugin are kept; the display name is
added only when it differs from the name. -/
def createIncompatibilities (g : GameIface) (data : List LootFile) : Json :=
  .jarr (data.filterMap (fun f =>
    if g.hasPlugin f.fname then
      some (.jobj (if f.displayName ≠ f.fname then
        set [(str "name", Json.jstr f.fname)] (str "displayName")
          (.jstr f.displayName)
      else [(str "name", Json.jstr f.fname)]))
    else none))

/-- createMissingMasters (lootthread.cpp lines 886-898). -/
def createMissingMasters (g : GameIface) (pluginName : Str) : Json :=
  .jarr ((g.masters pluginName).filterMap (fun m =>
    if g.hasPlugin m then none else some (.jstr m)))

/-- The metadata-dependent part of one plugin object (lootthread.cpp lines
756-765). -/
def pluginBase (g : GameIface) (n : Str) : List (Str × Json) :=
  match g.metadata n with
  | some md =>
    set (set (set (set [(str "name", Json.jstr n)]
      (str "incompatibilities") (createIncompatibilities g md.incompatibilities))
      (str "messages") (createMessages g md.messages))
      (str "dirty") (createDirty g md.dirty))
      (str "clean") (createClean g md.clean)
  | none => [(str "name", Json.jstr n)]

/-- The unconditional boolean fields (lootthread.cpp lines 769-779). -/
def addFlag (o : List (Str × Json)) (b : Bool) (k : Str) : List (Str × Json) :=
  if b then o ++ [(k, Json.jbool true)] else o

/-- One plugin's JSON object before the size gate (lootthread.cpp lines
752-780). -/
def pluginObject (g : GameIface) (n : Str) : List (Str × Json) :=
  addFlag (addFlag (addFlag
    (set (pluginBase g n) (str "missingMasters") (createMissingMasters g n))
    (g.loadsArchive n) (str "loadsArchive"))
    (g.isMaster n) (str "isMaster"))
    (g.isLightPlugin n) (str "isLightMaster")

/-- createPlugins (lootthread.cpp lines 746-788): a plugin object is pushed
only when it holds more than the bare name. -/
def createPlugins (g : GameIface) (sortedPlugins : List Str) : List Json :=
  sortedPlugins.filterMap (fun n =>
    if 1 < (pluginObject g n).length then some (.jobj (pluginObject g n))
    else none)

/-- Invariant of a plugin object under construction: the name field first,
and every later field neither reuses the name key nor holds an empty
value. -/
def GoodTail (o : List (Str × Json)) (n : Str) : Prop :=
  ∃ rest, o = (str "name", Json.jstr n) :: rest ∧
    ∀ kv ∈ rest, kv.1 ≠ str "name" ∧ isEmptyJson kv.2 = false

theorem goodTail_set {o : List (Str × Json)} {n k : Str} {v : Json}
    (h : GoodTail o n) (hk : k ≠ str "name") : GoodTail (set o k v) n := by
  obtain ⟨rest, ho, hrest⟩ := h
  unfold set
  by_cases he : isEmptyJson v
  · rw [if_pos he]
    exact ⟨rest, ho, hrest⟩
  · rw [if_neg he]
    refine ⟨rest ++ [(k, v)], by rw [ho]; rfl, fun kv hkv => ?_⟩
    rcases List.mem_append.mp hkv with h1 | h1
    · exact hrest kv h1
    · rw [List.mem_singleton.mp h1]
      exact ⟨hk, by simpa using he⟩

theorem goodTail_addFlag {o : List (Str × Json)} {n k : Str} {b : Bool}
    (h : GoodTail o n) (hk : k ≠ str "name") : GoodTail (addFlag o b k) n := by
  obtain ⟨rest, ho, hrest⟩ := h
  unfold addFlag
  by_cases hb : b = true
  · rw [if_pos hb]
    refine ⟨rest ++ [(k, Json.jbool true)], by rw [ho]; rfl, fun kv hkv => ?_⟩
    rcases List.mem_append.mp hkv with h1 | h1
    · exact hrest kv h1
    · rw [List.mem_singleton.mp h1]
      exact ⟨hk, rfl⟩
  · rw [if_neg hb]
    exact ⟨rest, ho, hrest⟩

theorem pluginObject_goodTail (g : GameIface) (n : Str) :
    GoodTail (pluginObject g n) n := by
  have hbase : GoodTail (pluginBase g n) n := by
    unfold pluginBase
    cases g.metadata n with
    | none => exact ⟨[], rfl, by simp⟩
    | some md =>
      exact goodTail_set (goodTail_set (goodTail_set (goodTail_set
        ⟨[], rfl, by simp⟩ (by decide)) (by decide)) (by decide)) (by decide)
  exact goodTail_addFlag (goodTail_addFlag (goodTail_addFlag
    (goodTail_set hbase (by decide)) (by decide)) (by decide)) (by decide)

theorem goodTail_extra {o : List (Str × Json)} {n : Str} (h : GoodTail o n) :
    1 < o.length ↔ ∃ k v, (k, v) ∈ o ∧ k ≠ str "name" := by
  obtain ⟨rest, ho, hrest⟩ := h
  constructor
  · intro hl
    cases rest with
    | nil => rw [ho] at hl; simp at hl
    | cons kv rest' =>
      refine ⟨kv.1, kv.2, ?_, (hrest kv (List.mem_cons_self kv rest')).1⟩
      rw [ho]
      exact List.mem_cons_of_mem _ (List.mem_cons_self kv rest')
  · rintro ⟨k, v, hmem, hk⟩
    rw [ho] at hmem
    rcases List.mem_cons.mp hmem with he | hm
    · exact absurd (congrArg Prod.fst he) hk
    · rw [ho]
      have : rest ≠ [] := List.ne_nil_of_mem hm
      have : 0 < rest.length := List.length_pos.mpr this
      simp only [List.length_cons]
      omega

/-- C9: a plugin appears in the plugins array iff its object carries at
least one field beyond the bare name after the set filtering; the name
field always comes first; and every field other than the name is never an
empty object, array or string. -/
theorem report_plugin_inclusion (g : GameIface) (sorted : List Str) :
    (∀ n ∈ sorted,
      (Json.jobj (pluginObject g n) ∈ createPlugins g sorted ↔
        ∃ k v, (k, v) ∈ pluginObject g n ∧ k ≠ str "name")) ∧
    (∀ n, (pluginObject g n).head? = some (str "name", Json.jstr n)) ∧
    (∀ n k v, (k, v) ∈ pluginObject g n → k ≠ str "name" →
      isEmptyJson v = false) := by
  refine ⟨?_, ?_, ?_⟩
  · intro n hn
    constructor
    · intro hmem
      unfold createPlugins at hmem
      obtain ⟨m, _, hsome⟩ := List.mem_filterMap.mp hmem
      by_cases hl : 1 < (pluginObject g m).length
      · rw [if_pos hl] at hsome
        injection hsome with h1
        injection h1 with h2
        rw [← h2]
        exact (goodTail_extra (pluginObject_goodTail g m)).mp hl
      · rw [if_neg hl] at hsome
        cases hsome
    · intro hex
      have hl := (goodTail_extra (pluginObject_goodTail g n)).mpr hex
      unfold createPlugins
      exact List.mem_filterMap.mpr ⟨n, hn, by rw [if_pos hl]⟩
  · intro n
    obtain ⟨rest, ho, _⟩ := pluginObject_goodTail g n
    rw [ho]
    rfl
  · intro n k v hmem hk
    obtain ⟨rest, ho, hrest⟩ := pluginObject_goodTail g n
    rw [ho] at hmem
    rcases List.mem_cons.mp hmem with he | hm
    · exact absurd (congrArg Prod.fst he) hk
    · exact (hrest (k, v) hm).2

/-- A concrete game interface: one master plugin, no metadata. -/
def trivGame : GameIface :=
  { hasPlugin := fun _ => true
    masters := fun _ => []
    loadsArchive := fun _ => false
    isMaster := fun m => m == str "a.esm"
    isLightPlugin := fun _ => false
    metadata := fun _ => none
    selectContent := fun _ => none }

theorem report_plugin_inclusion_witness :
    Json.jobj (pluginObject trivGame (str "a.esm")) ∈
      createPlugins trivGame [str "a.esm", str "b.esp"] :=
  ((report_plugin_inclusion trivGame [str "a.esm", str "b.esp"]).1
      (str "a.esm") (by decide)).mpr
    ⟨str "isMaster", Json.jbool true,
     by
      rw [show pluginObject trivGame (str "a.esm") =
        [(str "name", Json.jstr (str "a.esm")),
         (str "isMaster", Json.jbool true)] from rfl]
      exact List.mem_cons_of_mem _ (List.mem_cons_self _ _),
     by decide⟩

end LootCli
